import Mathlib

/-!
# Shallow embedding of folly's RequestContext (folly/io/async/Request.h)

The embedding models the request-context store of `Request.h`:

* `RObj` / `Heap` — the heap of `RequestData` objects, each carrying its
  `hasCallback` capability flag and the intrusive `keepAliveCounter_`
  (`std::atomic<int> keepAliveCounter_{0}` in the source).
* `State` — `RequestContext::State`: the ordered map
  `std::map<std::string, RequestData::SharedPtr> requestData_` (modelled as a
  key-sorted association list of raw pointers) and the ordered set
  `std::set<RequestData*> callbackData_` (modelled as a strictly-sorted list
  of pointers).
* `World` — process state for one thread: the heap, the heap of
  `RequestContext` objects, the thread's current-context slot
  (`getStaticContext()`), the set of keys already warned about, an event
  trace recording callback invocations and diagnostics, and an allocation
  counter.

Pointers are natural numbers; pointer equality of the C++ code is equality
of these numbers. Only the header `Request.h` is available; the bodies of
the non-inline member functions (those of `Request.cpp`) are modelled from
the specification and are marked `Modelled from the spec:` below.
-/

namespace Folly

/-- A pointer (a C++ address), used both for `RequestData*` and for
`RequestContext` instances. -/
abbrev Ptr := Nat

/-- The parts of a `RequestData` object that the store observes: the
`hasCallback()` capability flag and the intrusive reference counter
`keepAliveCounter_` (initialized to 0 in the source). -/
structure RObj where
  hasCallback : Bool
  keepAliveCounter_ : Nat
deriving DecidableEq, Repr

/-- The heap of live `RequestData` objects: an association from address to
object. An address absent from the heap is a freed (or never allocated)
object. -/
abbrev Heap := List (Ptr × RObj)

/-- Look up the object at address `p`. -/
def heapFind : Heap → Ptr → Option RObj
  | [], _ => none
  | (q, o) :: rest, p => if p = q then some o else heapFind rest p

/-- Store object `o` at address `p` (overwriting what is there). -/
def heapSet : Heap → Ptr → RObj → Heap
  | [], _, _ => []
  | (q, o') :: rest, p, o =>
    if p = q then (q, o) :: rest else (q, o') :: heapSet rest p o

/-- Free the object at address `p`. -/
def heapRemove : Heap → Ptr → Heap
  | [], _ => []
  | (q, o) :: rest, p =>
    if p = q then heapRemove rest p else (q, o) :: heapRemove rest p

/-- `hasCallback()` of the object at address `p` (`false` on a dangling
pointer, which the modelled operations never feed it). -/
def hasCallbackAt (h : Heap) (p : Ptr) : Bool :=
  match heapFind h p with
  | some o => o.hasCallback
  | none => false

/-- Modelled from the spec: `RequestData::constructPtr` (declared at
Request.h:66, body in the missing Request.cpp). "Initialize the
pseudo-shared ptr, increment the counter": construction of a
reference-counted entry handle increments the atomic counter embedded in
the RequestData instance. Returns the updated heap; the handle itself is
the same raw pointer. -/
def constructPtr (h : Heap) (p : Ptr) : Heap :=
  match heapFind h p with
  | none => h
  | some o => heapSet h p { o with keepAliveCounter_ := o.keepAliveCounter_ + 1 }

/-- Modelled from the spec: `RequestData::DestructPtr::operator()` (declared
at Request.h:60-62, body in the missing Request.cpp). "decrement the
counter and only free if 0": destroying a handle decrements the counter and
frees the RequestData exactly when the counter reaches zero. -/
def destructPtr (h : Heap) (p : Ptr) : Heap :=
  match heapFind h p with
  | none => h
  | some o =>
    if o.keepAliveCounter_ ≤ 1 then heapRemove h p
    else heapSet h p { o with keepAliveCounter_ := o.keepAliveCounter_ - 1 }

/-- `RequestContext::State` (Request.h:169-173): the ordered map
`requestData_` from string key to (shared-ptr-held) `RequestData*`, and the
ordered set `callbackData_` of raw pointers to the entries with callbacks.
The map is modelled as a key-sorted association list, the set as a
strictly-sorted pointer list. -/
structure State where
  requestData_ : List (String × Ptr)
  callbackData_ : List Ptr
deriving DecidableEq, Repr

/-- Lookup in the `requestData_` map. -/
def mapFind : List (String × Ptr) → String → Option Ptr
  | [], _ => none
  | (k', v) :: rest, k => if k = k' then some v else mapFind rest k

/-- `std::map` insertion-or-assignment, on a key-sorted association list. -/
def mapInsert (k : String) (v : Ptr) : List (String × Ptr) → List (String × Ptr)
  | [] => [(k, v)]
  | (k', v') :: rest =>
    if k < k' then (k, v) :: (k', v') :: rest
    else if k = k' then (k, v) :: rest
    else (k', v') :: mapInsert k v rest

/-- `std::map::erase` of one key. -/
def mapErase (k : String) : List (String × Ptr) → List (String × Ptr)
  | [] => []
  | (k', v') :: rest =>
    if k = k' then rest else (k', v') :: mapErase k rest

/-- `std::set<RequestData*>::insert`, on a strictly-sorted pointer list. -/
def setInsert (p : Ptr) : List Ptr → List Ptr
  | [] => [p]
  | q :: rest =>
    if p < q then p :: q :: rest
    else if p = q then q :: rest
    else q :: setInsert p rest

/-- `std::set<RequestData*>::erase`. -/
def setErase (p : Ptr) : List Ptr → List Ptr
  | [] => []
  | q :: rest => if p = q then rest else q :: setErase p rest

/-- Events observable from outside the store: the `onSet`/`onUnset` hook of
the RequestData at a given address being invoked, and the
duplicate-key diagnostic of `setContextData`. -/
inductive Event where
  | onSetCb (data : Ptr)
  | onUnsetCb (data : Ptr)
  | warnDup (key : String)
deriving DecidableEq, Repr

/-- Modelled from the spec: `RequestContext::onSet` (declared at
Request.h:120, body missing). It iterates the callback index in its
(sorted, deterministic) order and invokes `onSet` on each entry; this is
the list of hook invocations it emits. -/
def onSetEvents (s : State) : List Event :=
  s.callbackData_.map Event.onSetCb

/-- Modelled from the spec: `RequestContext::onUnset` (declared at
Request.h:121, body missing), analogous to `onSet`. -/
def onUnsetEvents (s : State) : List Event :=
  s.callbackData_.map Event.onUnsetCb

/-- `RequestContext::DoSetBehaviour` (Request.h:158-162). -/
inductive DoSetBehaviour where
  | SET
  | SET_IF_ABSENT
  | OVERWRITE
deriving DecidableEq, Repr

/-- Result of `doSetContextData`: the updated store state, heap and
warned-key set, the emitted events, and the boolean result. -/
structure DoSetResult where
  state : State
  heap : Heap
  warned : List String
  events : List Event
  ret : Bool
deriving DecidableEq, Repr

/-- Modelled from the spec: `RequestContext::doSetContextData`
(declared at Request.h:164-167, body missing). Under the store's lock:
* if `key` has an entry and the behaviour is `SET_IF_ABSENT`, do nothing
  and return false;
* if `key` has an entry and the behaviour is `SET`, emit the
  one-time-per-key diagnostic, remove the existing entry (running no
  callback, releasing its handle) and do NOT install `data`;
* if `key` has an entry and the behaviour is `OVERWRITE`, replace the
  entry with `data`, updating the callback index;
* if `key` is absent, install `data` as a new entry (a fresh handle,
  incrementing its counter), adding it to the callback index exactly when
  its `hasCallback()` is true. -/
def doSetContextData (s : State) (h : Heap) (warned : List String)
    (key : String) (data : Ptr) (behaviour : DoSetBehaviour) : DoSetResult :=
  match mapFind s.requestData_ key with
  | some old =>
    match behaviour with
    | .SET_IF_ABSENT => ⟨s, h, warned, [], false⟩
    | .SET =>
      let evs := if key ∈ warned then [] else [Event.warnDup key]
      let warned' := if key ∈ warned then warned else key :: warned
      let cb' := if hasCallbackAt h old then setErase old s.callbackData_
                 else s.callbackData_
      ⟨⟨mapErase key s.requestData_, cb'⟩, destructPtr h old, warned', evs, true⟩
    | .OVERWRITE =>
      let cb1 := if hasCallbackAt h old then setErase old s.callbackData_
                 else s.callbackData_
      let cb2 := if hasCallbackAt h data then setInsert data cb1 else cb1
      ⟨⟨mapInsert key data s.requestData_, cb2⟩,
        constructPtr (destructPtr h old) data, warned, [], true⟩
  | none =>
    let cb' := if hasCallbackAt h data then setInsert data s.callbackData_
               else s.callbackData_
    ⟨⟨mapInsert key data s.requestData_, cb'⟩, constructPtr h data, warned, [], true⟩

/-- `RequestContext::setContextData` (Request.h:97-99): wraps
`doSetContextData` with behaviour `SET`. -/
def setContextData (s : State) (h : Heap) (warned : List String)
    (key : String) (data : Ptr) : DoSetResult :=
  doSetContextData s h warned key data .SET

/-- `RequestContext::setContextDataIfAbsent` (Request.h:104-106): wraps
`doSetContextData` with behaviour `SET_IF_ABSENT`. -/
def setContextDataIfAbsent (s : State) (h : Heap) (warned : List String)
    (key : String) (data : Ptr) : DoSetResult :=
  doSetContextData s h warned key data .SET_IF_ABSENT

/-- `RequestContext::overwriteContextData` (Request.h:153-155): wraps
`doSetContextData` with behaviour `OVERWRITE`. -/
def overwriteContextData (s : State) (h : Heap) (warned : List String)
    (key : String) (data : Ptr) : DoSetResult :=
  doSetContextData s h warned key data .OVERWRITE

/-- Modelled from the spec: `RequestContext::clearContextData` (declared at
Request.h:109, body missing). Removes the entry for `key` if present,
removing it from the callback index too and releasing its handle; no-op
when absent. -/
def clearContextData (s : State) (h : Heap) (key : String) : State × Heap :=
  match mapFind s.requestData_ key with
  | none => (s, h)
  | some old =>
    let cb' := if hasCallbackAt h old then setErase old s.callbackData_
               else s.callbackData_
    (⟨mapErase key s.requestData_, cb'⟩, destructPtr h old)

/-- Modelled from the spec: `RequestContext::hasContextData` (declared at
Request.h:113, body missing): lock-protected existence lookup. -/
def hasContextData (s : State) (key : String) : Bool :=
  (mapFind s.requestData_ key).isSome

/-- Modelled from the spec: `RequestContext::getContextData` (declared at
Request.h:117-118, body missing): returns the raw payload pointer when the
key exists, a null pointer (`none`) otherwise. -/
def getContextData (s : State) (key : String) : Option Ptr :=
  mapFind s.requestData_ key

/-- The process state visible to one thread: the RequestData heap, the heap
of `RequestContext` objects (address to store state), the thread's
current-context slot (`getStaticContext()`; `none` models a
never-initialized null `shared_ptr`), the keys already warned about, the
event trace, and the next fresh address for allocations. -/
structure World where
  heap : Heap
  ctxs : List (Ptr × State)
  slot : Option Ptr
  warned : List String
  trace : List Event
  nextPtr : Ptr
deriving DecidableEq, Repr

/-- Look up a `RequestContext` object by address. -/
def ctxFind : List (Ptr × State) → Ptr → Option State
  | [], _ => none
  | (q, s) :: rest, p => if p = q then some s else ctxFind rest p

/-- Update the `RequestContext` object at an address. -/
def ctxUpdate : List (Ptr × State) → Ptr → State → List (Ptr × State)
  | [], _, _ => []
  | (q, s') :: rest, p, s =>
    if p = q then (q, s) :: rest else (q, s') :: ctxUpdate rest p s

/-- An empty `RequestContext` store (a fresh `RequestContext`). -/
def emptyState : State := ⟨[], []⟩

namespace RequestContext

/-- Modelled from the spec: `RequestContext::get` (declared at Request.h:85,
body missing). Returns the current context for the calling thread, or the
shared static default instance if none was ever installed; never a null
pointer. The default instance lives at `defaultContextPtr`. -/
def defaultContextPtr : Ptr := 0

/-- Modelled from the spec: the body of `RequestContext::get`. The result is
a raw `RequestContext*`: `none` would be null, `some p` the address `p`. -/
def get (w : World) : Option Ptr :=
  match w.slot with
  | none => some defaultContextPtr
  | some p => some p

/-- `RequestContext::saveContext` (Request.h:136-138): returns the current
slot value without altering it. -/
def saveContext (w : World) : Option Ptr :=
  w.slot

/-- Modelled from the spec: `RequestContext::setContext` (declared at
Request.h:133-134, body missing). Replaces the calling thread's
current-context slot with `ctx`, invoking `onUnset()` on the outgoing
context and then `onSet()` on the incoming one, and returns the prior
value. -/
def setContext (w : World) (ctx : Option Ptr) : World × Option Ptr :=
  let prev := w.slot
  let evUnset := match prev with
    | none => []
    | some p => match ctxFind w.ctxs p with
      | none => []
      | some s => onUnsetEvents s
  let evSet := match ctx with
    | none => []
    | some p => match ctxFind w.ctxs p with
      | none => []
      | some s => onSetEvents s
  ({ w with slot := ctx, trace := w.trace ++ evUnset ++ evSet }, prev)

/-- `RequestContext::create` (Request.h:80-82):
`setContext(std::make_shared<RequestContext>())` — allocate a fresh empty
context and install it. -/
def create (w : World) : World :=
  let c := w.nextPtr
  let w1 := { w with ctxs := (c, emptyState) :: w.ctxs, nextPtr := c + 1 }
  (setContext w1 (some c)).1

/-- Modelled from the spec: `RequestContext::setShallowCopyContext`
(declared at Request.h:149, body missing). Builds a new context whose entry
map and callback index are populated with handles referencing the very same
RequestData instances as the current store (each handle construction
increments that instance's counter; no RequestData is duplicated), installs
it as current WITHOUT invoking any `onSet`/`onUnset` (the shared entries
are not re-activated), and returns the prior context. -/
def setShallowCopyContext (w : World) : World × Option Ptr :=
  let parent : State :=
    match w.slot with
    | none => emptyState
    | some p =>
      match ctxFind w.ctxs p with
      | none => emptyState
      | some s => s
  let h' := (parent.requestData_.map Prod.snd).foldl constructPtr w.heap
  let c := w.nextPtr
  ({ w with heap := h',
            ctxs := (c, parent) :: w.ctxs,
            slot := some c,
            nextPtr := c + 1 }, w.slot)

end RequestContext

/-- Run `doSetContextData` on the `RequestContext` object at address `c`,
propagating its effects into the world (method-call wrapper). -/
def worldDoSet (w : World) (c : Ptr) (key : String) (data : Ptr)
    (behaviour : DoSetBehaviour) : World × Bool :=
  match ctxFind w.ctxs c with
  | none => (w, false)
  | some s =>
    let r := doSetContextData s w.heap w.warned key data behaviour
    ({ w with ctxs := ctxUpdate w.ctxs c r.state,
              heap := r.heap,
              warned := r.warned,
              trace := w.trace ++ r.events }, r.ret)

/-- `setContextData` on the context object at address `c`. -/
def worldSetContextData (w : World) (c : Ptr) (key : String) (data : Ptr) : World :=
  (worldDoSet w c key data .SET).1

/-- `overwriteContextData` on the context object at address `c`. -/
def worldOverwriteContextData (w : World) (c : Ptr) (key : String) (data : Ptr) : World :=
  (worldDoSet w c key data .OVERWRITE).1

/-- `clearContextData` on the context object at address `c`. -/
def worldClearContextData (w : World) (c : Ptr) (key : String) : World :=
  match ctxFind w.ctxs c with
  | none => w
  | some s =>
    let r := clearContextData s w.heap key
    { w with ctxs := ctxUpdate w.ctxs c r.1, heap := r.2 }

/-- `hasContextData` on the context object at address `c`. -/
def worldHasContextData (w : World) (c : Ptr) (key : String) : Bool :=
  match ctxFind w.ctxs c with
  | none => false
  | some s => hasContextData s key

/-- `getContextData` on the context object at address `c`. -/
def worldGetContextData (w : World) (c : Ptr) (key : String) : Option Ptr :=
  match ctxFind w.ctxs c with
  | none => none
  | some s => getContextData s key

/-- How a guarded region exits: a normal (or early) return with a value, or
stack unwinding from a raised failure carrying an error code. -/
inductive ExitPath (α : Type) where
  | normal (a : α)
  | raised (e : Nat)

/-- A guarded region body: arbitrary code that transforms the world and
exits along some path. -/
def GuardBody (α : Type) := World → World × ExitPath α

/-- `RequestContextScopeGuard()` (Request.h:193-195, 202-204) around a
body: the constructor saves the current context into `prev_` and calls
`RequestContext::create()`; the destructor — which C++ runs on EVERY exit
path of the scope, normal return, early return, or unwinding — calls
`RequestContext::setContext(std::move(prev_))`. -/
def runFullGuardFresh {α : Type} (body : GuardBody α) (w : World) :
    World × ExitPath α :=
  let prev := RequestContext.saveContext w
  let w1 := RequestContext.create w
  let res := body w1
  ((RequestContext.setContext res.1 prev).1, res.2)

/-- `RequestContextScopeGuard(ctx)` (Request.h:199-200, 202-204) around a
body: the constructor stores `setContext(ctx)` into `prev_`; the destructor
restores `prev_` on every exit path. -/
def runFullGuardCtx {α : Type} (ctx : Option Ptr) (body : GuardBody α)
    (w : World) : World × ExitPath α :=
  let ctor := RequestContext.setContext w ctx
  let res := body ctor.1
  ((RequestContext.setContext res.1 ctor.2).1, res.2)

/-- `ShallowCopyRequestContextScopeGuard()` (Request.h:215-216, 231-233)
around a body: the constructor stores `setShallowCopyContext()` into
`prev_`; the destructor restores `prev_` on every exit path. -/
def runShallowGuard {α : Type} (body : GuardBody α) (w : World) :
    World × ExitPath α :=
  let ctor := RequestContext.setShallowCopyContext w
  let res := body ctor.1
  ((RequestContext.setContext res.1 ctor.2).1, res.2)

/-- Construction of `ShallowCopyRequestContextScopeGuard(val, data)`
(Request.h:224-229): delegate to the zero-argument constructor
(`setShallowCopyContext`), then
`RequestContext::get()->overwriteContextData(val, std::move(data))`. -/
def shallowGuardOverwriteCtor (w : World) (val : String) (data : Ptr) :
    World × Option Ptr :=
  let ctor := RequestContext.setShallowCopyContext w
  match RequestContext.get ctor.1 with
  | none => ctor
  | some c => (worldOverwriteContextData ctor.1 c val data, ctor.2)

/-- `ShallowCopyRequestContextScopeGuard(val, data)` (Request.h:224-229,
231-233) around a body: the overwriting constructor, then the body, then
the destructor on every exit path. -/
def runShallowGuardOverwrite {α : Type} (val : String) (data : Ptr)
    (body : GuardBody α) (w : World) : World × ExitPath α :=
  let ctor := shallowGuardOverwriteCtor w val data
  let res := body ctor.1
  ((RequestContext.setContext res.1 ctor.2).1, res.2)

/-- The comparison program for the overwriting shallow-guard constructor:
the zero-argument `ShallowCopyRequestContextScopeGuard` construction
(`setShallowCopyContext`), then `clearContextData(val)` followed by
`setContextData(val, data)` on the current context. -/
def shallowGuardTwoStepCtor (w : World) (val : String) (data : Ptr) :
    World × Option Ptr :=
  let ctor := RequestContext.setShallowCopyContext w
  match RequestContext.get ctor.1 with
  | none => ctor
  | some c =>
    (worldSetContextData (worldClearContextData ctor.1 c val) c val data, ctor.2)

/-! ### Concrete instances used by the witnesses -/

/-- A concrete heap: a RequestData with an active callback and counter 1 at
address 7, one without callback and counter 2 at address 8, and two fresh
payloads (counter 0) at addresses 9 (with callback) and 10 (without). -/
def heapW : Heap := [(7, ⟨true, 1⟩), (8, ⟨false, 2⟩), (9, ⟨true, 0⟩), (10, ⟨false, 0⟩)]

/-- A concrete store: key "a" mapped to the RequestData at address 7, which
has a callback, so the callback index is `[7]`. -/
def stateA : State := ⟨[("a", 7)], [7]⟩

/-- A concrete store holding "b" ↦ 8 (no callback). -/
def stateB : State := ⟨[("b", 8)], []⟩

/-- A concrete world: default context at address 0, `stateA` at address 1,
`stateB` at address 2, current context address 1. -/
def worldW : World := ⟨heapW, [(0, emptyState), (1, stateA), (2, stateB)], some 1, [], [], 3⟩

/-- `worldW` with a never-initialized current-context slot. -/
def worldNoSlot : World := { worldW with slot := none }

/-- The pointers of all entries installed in a store. -/
def installedPtrs (s : State) : List Ptr :=
  s.requestData_.map Prod.snd

/-- The canonical callback index of a store: the installed entry pointers
whose `hasCallback()` is true, as a sorted `std::set`. -/
def cbIndexOf (s : State) (h : Heap) : List Ptr :=
  ((installedPtrs s).filter (hasCallbackAt h)).foldr setInsert []

/-- Well-formedness of a store's callback index with respect to the heap:
`callbackData_` is exactly the sorted set of installed entry pointers with
an active callback — the invariant `doSetContextData`, `clearContextData`
and the copies maintain. -/
def WFCallbackIndex (s : State) (h : Heap) : Prop :=
  s.callbackData_ = cbIndexOf s h

/-- A second concrete store with the same entries as `stateA` plus "b" ↦ 8,
inserted in the opposite order (its map lists "b" first). Its callback
index is again `[7]`. -/
def stateAB : State := ⟨[("a", 7), ("b", 8)], [7]⟩

/-- The same entries as `stateAB` in reversed map order. -/
def stateBA : State := ⟨[("b", 8), ("a", 7)], [7]⟩

/-! ## Basic lemmas about the heap, the key map and the pointer set -/

/-- The keys of a `requestData_` map are strictly increasing (the `std::map`
representation invariant). -/
def keysSorted (l : List (String × Ptr)) : Prop :=
  l.Pairwise (fun a b => a.1 < b.1)

/-- The keys of a `requestData_` map are pairwise distinct. -/
def keysNodup (l : List (String × Ptr)) : Prop :=
  l.Pairwise (fun a b => a.1 ≠ b.1)

theorem keysSorted.nodup {l : List (String × Ptr)} (h : keysSorted l) :
    keysNodup l :=
  h.imp ne_of_lt

theorem heapFind_heapRemove_self (h : Heap) (p : Ptr) :
    heapFind (heapRemove h p) p = none := by
  induction h with
  | nil => rfl
  | cons e rest ih =>
    obtain ⟨q, o⟩ := e
    by_cases hpq : p = q
    · subst hpq
      simp [heapRemove, ih]
    · simp [heapRemove, heapFind, hpq, ih]

theorem heapFind_heapSet_self (h : Heap) (p : Ptr) (o o' : RObj)
    (hp : heapFind h p = some o') :
    heapFind (heapSet h p o) p = some o := by
  induction h with
  | nil => simp [heapFind] at hp
  | cons e rest ih =>
    obtain ⟨q, o''⟩ := e
    by_cases hpq : p = q
    · simp [heapSet, heapFind, hpq]
    · simp [heapFind, hpq] at hp
      simp [heapSet, heapFind, hpq, ih hp]

theorem heapFind_heapRemove_ne (h : Heap) (p q : Ptr) (hne : q ≠ p) :
    heapFind (heapRemove h p) q = heapFind h q := by
  induction h with
  | nil => rfl
  | cons e rest ih =>
    obtain ⟨r, o⟩ := e
    by_cases hpr : p = r
    · subst hpr
      simp [heapRemove, heapFind, hne, ih]
    · simp [heapRemove, heapFind, hpr]
      by_cases hqr : q = r
      · simp [hqr]
      · simp [hqr, ih]

theorem heapFind_heapSet_ne (h : Heap) (p q : Ptr) (o : RObj) (hne : q ≠ p) :
    heapFind (heapSet h p o) q = heapFind h q := by
  induction h with
  | nil => rfl
  | cons e rest ih =>
    obtain ⟨r, o'⟩ := e
    by_cases hpr : p = r
    · subst hpr
      simp [heapSet, heapFind, hne]
    · simp [heapSet, heapFind, hpr]
      by_cases hqr : q = r
      · simp [hqr]
      · simp [hqr, ih]

theorem heapFind_destructPtr_ne (h : Heap) (p q : Ptr) (hne : q ≠ p) :
    heapFind (destructPtr h p) q = heapFind h q := by
  unfold destructPtr
  cases hf : heapFind h p with
  | none => rfl
  | some o =>
    by_cases hc : o.keepAliveCounter_ ≤ 1
    · simp [hc, heapFind_heapRemove_ne h p q hne]
    · simp [hc, heapFind_heapSet_ne _ p q _ hne]

theorem heapFind_constructPtr_ne (h : Heap) (p q : Ptr) (hne : q ≠ p) :
    heapFind (constructPtr h p) q = heapFind h q := by
  unfold constructPtr
  cases hf : heapFind h p with
  | none => rfl
  | some o => simp [heapFind_heapSet_ne _ p q _ hne]

theorem hasCallbackAt_destructPtr_ne (h : Heap) (p q : Ptr) (hne : q ≠ p) :
    hasCallbackAt (destructPtr h p) q = hasCallbackAt h q := by
  simp [hasCallbackAt, heapFind_destructPtr_ne h p q hne]

theorem mapFind_mapInsert_self (l : List (String × Ptr)) (k : String) (v : Ptr) :
    mapFind (mapInsert k v l) k = some v := by
  induction l with
  | nil => simp [mapInsert, mapFind]
  | cons e rest ih =>
    obtain ⟨k', v'⟩ := e
    by_cases hlt : k < k'
    · simp [mapInsert, hlt, mapFind]
    · by_cases heq : k = k'
      · simp [mapInsert, hlt, heq, mapFind]
      · simp [mapInsert, hlt, heq, mapFind, ih]

theorem mapFind_mapInsert_ne (l : List (String × Ptr)) (k k2 : String) (v : Ptr)
    (hne : k2 ≠ k) :
    mapFind (mapInsert k v l) k2 = mapFind l k2 := by
  induction l with
  | nil => simp [mapInsert, mapFind, hne]
  | cons e rest ih =>
    obtain ⟨k', v'⟩ := e
    by_cases hlt : k < k'
    · simp [mapInsert, hlt, mapFind, hne]
    · by_cases heq : k = k'
      · subst heq
        simp [mapInsert, hlt, mapFind, hne]
      · simp [mapInsert, hlt, heq, mapFind]
        by_cases h2 : k2 = k'
        · simp [h2]
        · simp [h2, ih]

theorem mapFind_mapErase_ne (l : List (String × Ptr)) (k k2 : String)
    (hne : k2 ≠ k) :
    mapFind (mapErase k l) k2 = mapFind l k2 := by
  induction l with
  | nil => rfl
  | cons e rest ih =>
    obtain ⟨k', v'⟩ := e
    by_cases heq : k = k'
    · subst heq
      simp [mapErase, mapFind, hne]
    · simp [mapErase, mapFind, heq]
      by_cases h2 : k2 = k'
      · simp [h2]
      · simp [h2, ih]

theorem mapFind_none_of_forall_ne (l : List (String × Ptr)) (k : String)
    (h : ∀ e ∈ l, e.1 ≠ k) : mapFind l k = none := by
  induction l with
  | nil => rfl
  | cons e rest ih =>
    obtain ⟨k', v'⟩ := e
    have hk : k ≠ k' := fun hc => (h (k', v') (List.mem_cons_self _ _)) hc.symm
    simp [mapFind, hk]
    exact ih fun e he => h e (List.mem_cons_of_mem _ he)

theorem mapFind_mapErase_self (l : List (String × Ptr)) (k : String)
    (hnd : keysNodup l) : mapFind (mapErase k l) k = none := by
  induction l with
  | nil => rfl
  | cons e rest ih =>
    obtain ⟨k', v'⟩ := e
    rw [keysNodup, List.pairwise_cons] at hnd
    by_cases heq : k = k'
    · subst heq
      simp [mapErase]
      exact mapFind_none_of_forall_ne rest k fun e he => (hnd.1 e he).symm
    · simp [mapErase, mapFind, heq]
      exact ih hnd.2

theorem mapErase_of_not_mem (l : List (String × Ptr)) (k : String)
    (h : ∀ e ∈ l, e.1 ≠ k) : mapErase k l = l := by
  induction l with
  | nil => rfl
  | cons e rest ih =>
    obtain ⟨k', v'⟩ := e
    have hk : k ≠ k' := fun hc => (h (k', v') (List.mem_cons_self _ _)) hc.symm
    simp [mapErase, hk]
    exact ih fun e he => h e (List.mem_cons_of_mem _ he)

theorem mapInsert_head_of_lt (l : List (String × Ptr)) (k : String) (v : Ptr)
    (h : ∀ e ∈ l, k < e.1) : mapInsert k v l = (k, v) :: l := by
  cases l with
  | nil => rfl
  | cons e rest =>
    obtain ⟨k', v'⟩ := e
    have : k < k' := h (k', v') (List.mem_cons_self _ _)
    simp [mapInsert, this]

/-- On a key-sorted map, `std::map` assignment to `k` is the same whether or
not the entry for `k` was erased first. -/
theorem mapInsert_mapErase (l : List (String × Ptr)) (k : String) (v : Ptr)
    (hs : keysSorted l) : mapInsert k v (mapErase k l) = mapInsert k v l := by
  induction l with
  | nil => rfl
  | cons e rest ih =>
    obtain ⟨k', v'⟩ := e
    rw [keysSorted, List.pairwise_cons] at hs
    by_cases heq : k = k'
    · subst heq
      simp [mapErase]
      have h1 : ∀ e ∈ rest, k < e.1 := hs.1
      rw [mapInsert_head_of_lt rest k v h1]
      simp [mapInsert]
    · by_cases hlt : k < k'
      · have hrest : mapErase k rest = rest := by
          refine mapErase_of_not_mem rest k fun e he => ?_
          exact ne_of_gt (lt_trans hlt (hs.1 e he))
        simp [mapErase, heq, hrest]
      · simp [mapErase, heq, mapInsert, hlt]
        exact ih hs.2

theorem mem_setInsert (p q : Ptr) (l : List Ptr) :
    p ∈ setInsert q l ↔ p = q ∨ p ∈ l := by
  induction l with
  | nil => simp [setInsert]
  | cons r rest ih =>
    by_cases hlt : q < r
    · simp [setInsert, hlt]
    · by_cases heq : q = r
      · subst heq
        simp [setInsert, hlt]
      · simp [setInsert, hlt, heq, ih]
        tauto

theorem pairwise_setInsert (p : Ptr) (l : List Ptr)
    (h : l.Pairwise (· < ·)) : (setInsert p l).Pairwise (· < ·) := by
  induction l with
  | nil => simp [setInsert]
  | cons q rest ih =>
    rw [List.pairwise_cons] at h
    by_cases hlt : p < q
    · simp only [setInsert, if_pos hlt]
      rw [List.pairwise_cons]
      constructor
      · intro x hx
        rcases List.mem_cons.1 hx with hx | hx
        · exact hx ▸ hlt
        · exact lt_trans hlt (h.1 x hx)
      · rw [List.pairwise_cons]
        exact h
    · by_cases heq : p = q
      · subst heq
        have hrw : setInsert p (p :: rest) = p :: rest := by
          simp [setInsert, hlt]
        rw [hrw, List.pairwise_cons]
        exact h
      · have hqp : q < p := lt_of_le_of_ne (le_of_not_lt hlt) (Ne.symm heq)
        simp only [setInsert, if_neg hlt, if_neg heq]
        rw [List.pairwise_cons]
        constructor
        · intro x hx
          rcases (mem_setInsert x p rest).1 hx with hx | hx
          · exact hx ▸ hqp
          · exact h.1 x hx
        · exact ih h.2

/-- Two strictly sorted pointer lists with the same members are equal. -/
theorem sortedLt_eq_of_mem : ∀ (l1 l2 : List Ptr),
    l1.Pairwise (· < ·) → l2.Pairwise (· < ·) →
    (∀ a, a ∈ l1 ↔ a ∈ l2) → l1 = l2
  | [], [], _, _, _ => rfl
  | [], b :: l2, _, _, hm => absurd ((hm b).2 (List.mem_cons_self _ _)) (List.not_mem_nil b)
  | a :: l1, [], _, _, hm => absurd ((hm a).1 (List.mem_cons_self _ _)) (List.not_mem_nil a)
  | a :: l1, b :: l2, h1, h2, hm => by
    rw [List.pairwise_cons] at h1 h2
    have hab : a = b := by
      rcases List.mem_cons.1 ((hm a).1 (List.mem_cons_self _ _)) with h | h
      · exact h
      · rcases List.mem_cons.1 ((hm b).2 (List.mem_cons_self _ _)) with h' | h'
        · exact h'.symm
        · exact absurd (lt_trans (h2.1 a h) (h1.1 b h')) (lt_irrefl b)
    subst hab
    have htail : ∀ x, x ∈ l1 ↔ x ∈ l2 := by
      intro x
      constructor
      · intro hx
        have hne : x ≠ a := ne_of_gt (h1.1 x hx)
        rcases List.mem_cons.1 ((hm x).1 (List.mem_cons_of_mem _ hx)) with h | h
        · exact absurd h hne
        · exact h
      · intro hx
        have hne : x ≠ a := ne_of_gt (h2.1 x hx)
        rcases List.mem_cons.1 ((hm x).2 (List.mem_cons_of_mem _ hx)) with h | h
        · exact absurd h hne
        · exact h
    rw [sortedLt_eq_of_mem l1 l2 h1.2 h2.2 htail]

theorem ctxFind_head (c : Ptr) (s : State) (r : List (Ptr × State)) :
    ctxFind ((c, s) :: r) c = some s := by
  simp [ctxFind]

theorem ctxFind_cons_ne (c p : Ptr) (s : State) (r : List (Ptr × State))
    (hne : p ≠ c) : ctxFind ((c, s) :: r) p = ctxFind r p := by
  simp [ctxFind, hne]

theorem ctxUpdate_head (c : Ptr) (s s' : State) (r : List (Ptr × State)) :
    ctxUpdate ((c, s) :: r) c s' = (c, s') :: r := by
  simp [ctxUpdate]

theorem mem_foldr_setInsert (p : Ptr) (l : List Ptr) :
    p ∈ l.foldr setInsert [] ↔ p ∈ l := by
  induction l with
  | nil => simp
  | cons q rest ih =>
    simp only [List.foldr_cons, mem_setInsert, ih, List.mem_cons]

theorem pairwise_foldr_setInsert (l : List Ptr) :
    (l.foldr setInsert []).Pairwise (· < ·) := by
  induction l with
  | nil => simp
  | cons q rest ih => exact pairwise_setInsert q _ ih

theorem mem_cbIndexOf (s : State) (h : Heap) (p : Ptr) :
    p ∈ cbIndexOf s h ↔ p ∈ installedPtrs s ∧ hasCallbackAt h p = true := by
  rw [cbIndexOf, mem_foldr_setInsert, List.mem_filter]

/-! ## Claim theorems -/

/-- Claim C1: for every full or shallow scope guard, on every exit path
from the guarded scope (normal return, early return, or unwinding from a
raised failure — the body is an arbitrary computation whose exit path the
guard propagates unchanged), the current context observed immediately after
the guard's destruction equals the context observed immediately before the
guard's construction. -/
theorem scope_guard_restores_context {α : Type} (body : GuardBody α)
    (ctx : Option Ptr) (val : String) (data : Ptr) (w : World) :
    (RequestContext.saveContext (runFullGuardFresh body w).1
        = RequestContext.saveContext w ∧
      (runFullGuardFresh body w).2 = (body (RequestContext.create w)).2) ∧
    (RequestContext.saveContext (runFullGuardCtx ctx body w).1
        = RequestContext.saveContext w ∧
      (runFullGuardCtx ctx body w).2
        = (body (RequestContext.setContext w ctx).1).2) ∧
    (RequestContext.saveContext (runShallowGuard body w).1
        = RequestContext.saveContext w ∧
      (runShallowGuard body w).2
        = (body (RequestContext.setShallowCopyContext w).1).2) ∧
    (RequestContext.saveContext (runShallowGuardOverwrite val data body w).1
        = RequestContext.saveContext w ∧
      (runShallowGuardOverwrite val data body w).2
        = (body (shallowGuardOverwriteCtor w val data).1).2) :=
  ⟨⟨rfl, rfl⟩, ⟨rfl, rfl⟩, ⟨rfl, rfl⟩, ⟨rfl, rfl⟩⟩

/-- Claim C5: `setContext(ctx)` replaces the calling thread's
current-context slot with `ctx`, invokes `onUnset()` on the outgoing
context before `onSet()` on the incoming context, and returns the
previously current context. -/
theorem setContext_spec (w : World) (oldc newc : Ptr) (sOld sNew : State)
    (h1 : w.slot = some oldc)
    (h2 : ctxFind w.ctxs oldc = some sOld)
    (h3 : ctxFind w.ctxs newc = some sNew) :
    (RequestContext.setContext w (some newc)).2 = some oldc ∧
    (RequestContext.setContext w (some newc)).1.slot = some newc ∧
    (RequestContext.setContext w (some newc)).1.trace
      = w.trace ++ (onUnsetEvents sOld ++ onSetEvents sNew) := by
  unfold RequestContext.setContext
  simp [h1, h2, h3]

/-- Witness for C5 at a concrete world: swapping from context 1 to
context 2 returns `some 1`, installs `some 2`, and appends the `onUnset`
hooks of context 1 followed by the `onSet` hooks of context 2. -/
theorem setContext_spec_witness :
    (RequestContext.setContext worldW (some 2)).2 = some 1 ∧
    (RequestContext.setContext worldW (some 2)).1.slot = some 2 ∧
    (RequestContext.setContext worldW (some 2)).1.trace
      = worldW.trace ++ (onUnsetEvents stateA ++ onSetEvents stateB) :=
  setContext_spec worldW 1 2 stateA stateB rfl rfl rfl

/-- Claim C6: constructing a reference-counted handle increments the
intrusive atomic counter of the RequestData instance, destroying a handle
decrements it, and the RequestData is freed exactly when the counter
reaches zero — never while other handles remain. -/
theorem refcount_handle_lifecycle (h : Heap) (p : Ptr) (o : RObj)
    (hp : heapFind h p = some o) :
    constructPtr h p
      = heapSet h p { o with keepAliveCounter_ := o.keepAliveCounter_ + 1 } ∧
    heapFind (constructPtr h p) p
      = some { o with keepAliveCounter_ := o.keepAliveCounter_ + 1 } ∧
    (o.keepAliveCounter_ = 1 → heapFind (destructPtr h p) p = none) ∧
    (2 ≤ o.keepAliveCounter_ →
      heapFind (destructPtr h p) p
        = some { o with keepAliveCounter_ := o.keepAliveCounter_ - 1 }) := by
  refine ⟨?_, ?_, ?_, ?_⟩
  · unfold constructPtr
    rw [hp]
  · unfold constructPtr
    rw [hp]
    exact heapFind_heapSet_self h p _ o hp
  · intro h1
    unfold destructPtr
    rw [hp]
    simp [h1, heapFind_heapRemove_self]
  · intro h2
    unfold destructPtr
    rw [hp]
    have hgt : ¬ o.keepAliveCounter_ ≤ 1 := by omega
    simp only [if_neg hgt]
    exact heapFind_heapSet_self h p _ o hp

/-- Witness for C6 at a concrete heap: constructing a handle to the object
at address 7 raises its counter from 1 to 2; destroying the sole handle to
address 7 frees it; destroying one of the two handles to address 8 leaves
it allocated with counter 1. -/
theorem refcount_handle_lifecycle_witness :
    heapFind (constructPtr heapW 7) 7 = some ⟨true, 2⟩ ∧
    heapFind (destructPtr heapW 7) 7 = none ∧
    heapFind (destructPtr heapW 8) 8 = some ⟨false, 1⟩ :=
  ⟨(refcount_handle_lifecycle heapW 7 ⟨true, 1⟩ rfl).2.1,
   (refcount_handle_lifecycle heapW 7 ⟨true, 1⟩ rfl).2.2.1 rfl,
   (refcount_handle_lifecycle heapW 8 ⟨false, 2⟩ rfl).2.2.2 (by decide)⟩

/-- Claim C8: `RequestContext::get()` never returns a null pointer; when the
calling thread never had a context installed, it returns the shared default
context instance. -/
theorem get_never_null (w : World) :
    (RequestContext.get w).isSome = true ∧
    (w.slot = none →
      RequestContext.get w = some RequestContext.defaultContextPtr) ∧
    (∀ p, w.slot = some p → RequestContext.get w = some p) := by
  unfold RequestContext.get
  refine ⟨?_, ?_, ?_⟩
  · cases w.slot <;> simp
  · intro h
    rw [h]
  · intro p h
    rw [h]

/-- Witness for C8 at a concrete world whose slot was never initialized:
`get` returns the default context instance, not null. -/
theorem get_never_null_witness :
    (RequestContext.get worldNoSlot).isSome = true ∧
    RequestContext.get worldNoSlot = some RequestContext.defaultContextPtr :=
  ⟨(get_never_null worldNoSlot).1, (get_never_null worldNoSlot).2.1 rfl⟩

/-- Claim C3: if the key already has an entry, `setContextData` emits a
one-time-per-key diagnostic (a warning exactly when the key was not warned
about before, after which the key is marked warned), removes the existing
entry without running any callback, and does not install the new payload;
if the key is absent, it installs the payload as a new entry, adding it to
the callback index exactly when its `hasCallback()` is true. -/
theorem setContextData_spec (s : State) (h : Heap) (warned : List String)
    (key : String) (data : Ptr)
    (hnd : keysNodup s.requestData_)
    (hfresh : data ∉ s.callbackData_) :
    (∀ old, mapFind s.requestData_ key = some old →
      (setContextData s h warned key data).events
          = (if key ∈ warned then [] else [Event.warnDup key]) ∧
      key ∈ (setContextData s h warned key data).warned ∧
      mapFind (setContextData s h warned key data).state.requestData_ key
          = none ∧
      (setContextData s h warned key data).state.callbackData_
          = (if hasCallbackAt h old then setErase old s.callbackData_
             else s.callbackData_) ∧
      (∀ p : Ptr,
        Event.onSetCb p ∉ (setContextData s h warned key data).events ∧
        Event.onUnsetCb p ∉ (setContextData s h warned key data).events)) ∧
    (mapFind s.requestData_ key = none →
      mapFind (setContextData s h warned key data).state.requestData_ key
          = some data ∧
      (data ∈ (setContextData s h warned key data).state.callbackData_
          ↔ hasCallbackAt h data = true) ∧
      (setContextData s h warned key data).events = []) := by
  constructor
  · intro old hsome
    unfold setContextData doSetContextData
    rw [hsome]
    refine ⟨rfl, ?_, ?_, rfl, ?_⟩
    · by_cases hw : key ∈ warned
      · simp [hw]
      · simp [hw]
    · exact mapFind_mapErase_self s.requestData_ key hnd
    · intro p
      by_cases hw : key ∈ warned
      · simp [hw]
      · simp [hw]
  · intro hnone
    unfold setContextData doSetContextData
    rw [hnone]
    refine ⟨mapFind_mapInsert_self s.requestData_ key data, ?_, rfl⟩
    by_cases hcb : hasCallbackAt h data
    · simp only [if_pos hcb, hcb]
      simp [mem_setInsert]
    · simp only [if_neg hcb]
      simp [hfresh]
      simp [hcb]

/-- Witness for C3 at concrete inputs: at occupied key "a" of `stateA` the
first collision warns, marks "a" warned, removes the entry and discards the
payload; at the absent key "b" the payload at address 9 (which has a
callback) is installed and indexed. -/
theorem setContextData_spec_witness :
    (setContextData stateA heapW [] "a" 9).events = [Event.warnDup "a"] ∧
    "a" ∈ (setContextData stateA heapW [] "a" 9).warned ∧
    mapFind (setContextData stateA heapW [] "a" 9).state.requestData_ "a"
        = none ∧
    mapFind (setContextData stateA heapW [] "b" 9).state.requestData_ "b"
        = some 9 ∧
    (9 ∈ (setContextData stateA heapW [] "b" 9).state.callbackData_
        ↔ hasCallbackAt heapW 9 = true) := by
  have hnd : keysNodup stateA.requestData_ := by
    simp [keysNodup, stateA]
  have hfresh : (9 : Ptr) ∉ stateA.callbackData_ := by
    decide
  have h1 := (setContextData_spec stateA heapW [] "a" 9 hnd hfresh).1 7 (by decide)
  have h2 := (setContextData_spec stateA heapW [] "b" 9 hnd hfresh).2 (by decide)
  exact ⟨h1.1, h1.2.1, h1.2.2.1, h2.1, h2.2.1⟩

/-- Claim C4: `setContextDataIfAbsent` returns false and leaves the store,
heap, diagnostics and trace completely unchanged when the key already has
an entry; when the key is absent it installs the payload and returns true;
and after a successful install, a further call for the same key returns
false (it can return true again only once the key has been removed). -/
theorem setContextDataIfAbsent_spec (s : State) (h : Heap)
    (warned : List String) (key : String) (data : Ptr) :
    (∀ old, mapFind s.requestData_ key = some old →
      setContextDataIfAbsent s h warned key data = ⟨s, h, warned, [], false⟩) ∧
    (mapFind s.requestData_ key = none →
      (setContextDataIfAbsent s h warned key data).ret = true ∧
      mapFind (setContextDataIfAbsent s h warned key data).state.requestData_
          key = some data) ∧
    (∀ warned2 data2,
      (setContextDataIfAbsent s h warned key data).ret = true →
      (setContextDataIfAbsent
          (setContextDataIfAbsent s h warned key data).state
          (setContextDataIfAbsent s h warned key data).heap
          warned2 key data2).ret = false) := by
  refine ⟨?_, ?_, ?_⟩
  · intro old hsome
    unfold setContextDataIfAbsent doSetContextData
    rw [hsome]
  · intro hnone
    unfold setContextDataIfAbsent doSetContextData
    rw [hnone]
    exact ⟨rfl, mapFind_mapInsert_self s.requestData_ key data⟩
  · intro warned2 data2 hret
    cases hfind : mapFind s.requestData_ key with
    | some old =>
      unfold setContextDataIfAbsent doSetContextData at hret
      rw [hfind] at hret
      simp at hret
    | none =>
      unfold setContextDataIfAbsent doSetContextData
      rw [hfind]
      simp only
      rw [mapFind_mapInsert_self s.requestData_ key data]

/-- Witness for C4 at concrete inputs: installing at the absent key "b" of
`stateA` succeeds; an immediate second attempt on the result fails; an
attempt at the occupied key "a" fails and changes nothing. -/
theorem setContextDataIfAbsent_spec_witness :
    (setContextDataIfAbsent stateA heapW [] "b" 9).ret = true ∧
    (setContextDataIfAbsent
        (setContextDataIfAbsent stateA heapW [] "b" 9).state
        (setContextDataIfAbsent stateA heapW [] "b" 9).heap
        [] "b" 10).ret = false ∧
    setContextDataIfAbsent stateA heapW [] "a" 9
        = ⟨stateA, heapW, [], [], false⟩ :=
  ⟨((setContextDataIfAbsent_spec stateA heapW [] "b" 9).2.1 (by decide)).1,
   (setContextDataIfAbsent_spec stateA heapW [] "b" 9).2.2 [] 10
     ((setContextDataIfAbsent_spec stateA heapW [] "b" 9).2.1 (by decide)).1,
   (setContextDataIfAbsent_spec stateA heapW [] "a" 9).1 7 (by decide)⟩

/-- Claim C9: immediately after a successful `setContextData`,
`setContextDataIfAbsent` or `overwriteContextData` for a key,
`hasContextData` is true and `getContextData` returns the installed
payload (non-null); immediately after `clearContextData`, `hasContextData`
is false and `getContextData` returns null; and `clearContextData` on an
absent key is a no-op. -/
theorem data_presence_roundtrip (s : State) (h : Heap) (warned : List String)
    (key : String) (data : Ptr) (hs : keysSorted s.requestData_) :
    (mapFind s.requestData_ key = none →
      hasContextData (setContextData s h warned key data).state key = true ∧
      getContextData (setContextData s h warned key data).state key
        = some data) ∧
    ((setContextDataIfAbsent s h warned key data).ret = true →
      hasContextData (setContextDataIfAbsent s h warned key data).state key
          = true ∧
      getContextData (setContextDataIfAbsent s h warned key data).state key
          = some data) ∧
    (hasContextData (overwriteContextData s h warned key data).state key
        = true ∧
      getContextData (overwriteContextData s h warned key data).state key
        = some data) ∧
    (hasContextData (clearContextData s h key).1 key = false ∧
      getContextData (clearContextData s h key).1 key = none) ∧
    (mapFind s.requestData_ key = none → clearContextData s h key = (s, h)) := by
  refine ⟨?_, ?_, ?_, ?_, ?_⟩
  · intro hnone
    unfold setContextData doSetContextData
    rw [hnone]
    simp only
    rw [hasContextData, getContextData,
      mapFind_mapInsert_self s.requestData_ key data]
    exact ⟨rfl, rfl⟩
  · intro hret
    cases hfind : mapFind s.requestData_ key with
    | some old =>
      unfold setContextDataIfAbsent doSetContextData at hret
      rw [hfind] at hret
      simp at hret
    | none =>
      unfold setContextDataIfAbsent doSetContextData
      rw [hfind]
      simp only
      rw [hasContextData, getContextData,
        mapFind_mapInsert_self s.requestData_ key data]
      exact ⟨rfl, rfl⟩
  · unfold overwriteContextData doSetContextData
    cases hfind : mapFind s.requestData_ key with
    | some old =>
      simp only
      rw [hasContextData, getContextData,
        mapFind_mapInsert_self s.requestData_ key data]
      exact ⟨rfl, rfl⟩
    | none =>
      simp only
      rw [hasContextData, getContextData,
        mapFind_mapInsert_self s.requestData_ key data]
      exact ⟨rfl, rfl⟩
  · unfold clearContextData
    cases hfind : mapFind s.requestData_ key with
    | some old =>
      simp only
      rw [hasContextData, getContextData,
        mapFind_mapErase_self s.requestData_ key hs.nodup]
      exact ⟨rfl, rfl⟩
    | none =>
      simp only
      rw [hasContextData, getContextData, hfind]
      exact ⟨rfl, rfl⟩
  · intro hnone
    unfold clearContextData
    rw [hnone]

/-- Witness for C9 at concrete inputs: installing 8 at the absent key "b"
of `stateA` makes it present and readable; clearing the occupied key "a"
makes it absent and null; clearing the absent key "b" is a no-op. -/
theorem data_presence_roundtrip_witness :
    hasContextData (setContextData stateA heapW [] "b" 8).state "b" = true ∧
    getContextData (setContextData stateA heapW [] "b" 8).state "b"
        = some 8 ∧
    hasContextData (clearContextData stateA heapW "a").1 "a" = false ∧
    getContextData (clearContextData stateA heapW "a").1 "a" = none ∧
    clearContextData stateA heapW "b" = (stateA, heapW) := by
  have hs : keysSorted stateA.requestData_ := by
    simp [keysSorted, stateA]
  have h1 := (data_presence_roundtrip stateA heapW [] "b" 8 hs).1 (by decide)
  have h2 := (data_presence_roundtrip stateA heapW [] "a" 8 hs).2.2.2.1
  have h3 := (data_presence_roundtrip stateA heapW [] "b" 8 hs).2.2.2.2 (by decide)
  exact ⟨h1.1, h1.2, h2.1, h2.2, h3⟩

/-- Claim C7: a store's `onSet()`/`onUnset()` invoke the per-entry hooks
for exactly the installed entries whose `hasCallback()` is true, in a
stable order that depends only on which entries are installed — not on the
order in which they were inserted; and `setShallowCopyContext` does not
re-invoke `onSet` for the entries it merely shares. -/
theorem callback_hooks_spec :
    (∀ (s : State) (h : Heap), WFCallbackIndex s h →
      ∀ p : Ptr,
        (Event.onSetCb p ∈ onSetEvents s
          ↔ p ∈ installedPtrs s ∧ hasCallbackAt h p = true) ∧
        (Event.onUnsetCb p ∈ onUnsetEvents s
          ↔ p ∈ installedPtrs s ∧ hasCallbackAt h p = true)) ∧
    (∀ (s1 s2 : State) (h : Heap),
      WFCallbackIndex s1 h → WFCallbackIndex s2 h →
      (∀ p : Ptr, p ∈ installedPtrs s1 ↔ p ∈ installedPtrs s2) →
      onSetEvents s1 = onSetEvents s2 ∧ onUnsetEvents s1 = onUnsetEvents s2) ∧
    (∀ w : World, (RequestContext.setShallowCopyContext w).1.trace = w.trace) := by
  refine ⟨?_, ?_, ?_⟩
  · intro s h hwf p
    constructor
    · rw [onSetEvents, hwf]
      simp only [List.mem_map, Event.onSetCb.injEq]
      constructor
      · rintro ⟨q, hq, hqp⟩
        exact hqp ▸ (mem_cbIndexOf s h q).1 hq
      · intro hp
        exact ⟨p, (mem_cbIndexOf s h p).2 hp, rfl⟩
    · rw [onUnsetEvents, hwf]
      simp only [List.mem_map, Event.onUnsetCb.injEq]
      constructor
      · rintro ⟨q, hq, hqp⟩
        exact hqp ▸ (mem_cbIndexOf s h q).1 hq
      · intro hp
        exact ⟨p, (mem_cbIndexOf s h p).2 hp, rfl⟩
  · intro s1 s2 h hwf1 hwf2 hmem
    have hidx : cbIndexOf s1 h = cbIndexOf s2 h := by
      refine sortedLt_eq_of_mem _ _ (pairwise_foldr_setInsert _)
        (pairwise_foldr_setInsert _) ?_
      intro p
      rw [mem_cbIndexOf, mem_cbIndexOf, hmem p]
    rw [onSetEvents, onUnsetEvents, onSetEvents, onUnsetEvents, hwf1, hwf2, hidx]
    exact ⟨rfl, rfl⟩
  · intro w
    rfl

/-- Witness for C7 at concrete stores: in `stateAB` the `onSet` hook fires
exactly for the installed entry 7 (the one with a callback); `stateAB` and
`stateBA` hold the same entries in opposite insertion order and produce
identical hook sequences; a shallow copy of `worldW` emits no hook
events. -/
theorem callback_hooks_spec_witness :
    (Event.onSetCb 7 ∈ onSetEvents stateAB
      ↔ 7 ∈ installedPtrs stateAB ∧ hasCallbackAt heapW 7 = true) ∧
    onSetEvents stateAB = onSetEvents stateBA ∧
    (RequestContext.setShallowCopyContext worldW).1.trace = worldW.trace := by
  refine ⟨(callback_hooks_spec.1 stateAB heapW
      (by unfold WFCallbackIndex; decide) 7).1,
    (callback_hooks_spec.2.1 stateAB stateBA heapW
      (by unfold WFCallbackIndex; decide)
      (by unfold WFCallbackIndex; decide) ?_).1,
    callback_hooks_spec.2.2 worldW⟩
  intro p
  simp [installedPtrs, stateAB, stateBA]
  tauto

/-- Reducing `setShallowCopyContext` at a world whose current context is
known. -/
theorem setShallowCopyContext_eq (w : World) (orig : Ptr) (sOrig : State)
    (h1 : w.slot = some orig) (h2 : ctxFind w.ctxs orig = some sOrig) :
    RequestContext.setShallowCopyContext w
      = ({ w with
            heap := (sOrig.requestData_.map Prod.snd).foldl constructPtr w.heap,
            ctxs := (w.nextPtr, sOrig) :: w.ctxs,
            slot := some w.nextPtr,
            nextPtr := w.nextPtr + 1 }, some orig) := by
  unfold RequestContext.setShallowCopyContext
  rw [h1]
  simp [h2]

/-- On a sorted store, `OVERWRITE` at a key whose new payload differs from
the old entry is the same transformation as erasing the key and then
`SET`-installing the payload. -/
theorem doSet_overwrite_eq_clear_then_set (s : State) (h : Heap)
    (warned : List String) (val : String) (data : Ptr)
    (hs : keysSorted s.requestData_)
    (hne : ∀ old, mapFind s.requestData_ val = some old → data ≠ old) :
    doSetContextData s h warned val data .OVERWRITE
      = doSetContextData (clearContextData s h val).1
          (clearContextData s h val).2 warned val data .SET := by
  cases hfind : mapFind s.requestData_ val with
  | none =>
    have hclear : clearContextData s h val = (s, h) := by
      unfold clearContextData
      rw [hfind]
    rw [hclear]
    unfold doSetContextData
    rw [hfind]
  | some old =>
    have hdn : data ≠ old := hne old hfind
    unfold doSetContextData clearContextData
    rw [hfind]
    simp only
    rw [mapFind_mapErase_self s.requestData_ val hs.nodup]
    simp only
    rw [mapInsert_mapErase s.requestData_ val data hs,
      hasCallbackAt_destructPtr_ne h old data hdn]

/-- `OVERWRITE` emits no events (no warning, no callback). -/
theorem doSet_overwrite_events (s : State) (h : Heap) (warned : List String)
    (val : String) (data : Ptr) :
    (doSetContextData s h warned val data .OVERWRITE).events = [] := by
  unfold doSetContextData
  cases mapFind s.requestData_ val with
  | none => rfl
  | some old => rfl

/-- Claim C2: after `setShallowCopyContext`, clearing or overwriting a key
in the new (shallow-copy) context leaves `hasContextData` of that key in
the original context unchanged, while a key not touched in the new context
reads as the identically same RequestData pointer as in the original
context. -/
theorem shallow_copy_independence (w : World) (orig : Ptr) (sOrig : State)
    (h1 : w.slot = some orig)
    (h2 : ctxFind w.ctxs orig = some sOrig)
    (h3 : ctxFind w.ctxs w.nextPtr = none) :
    RequestContext.get (RequestContext.setShallowCopyContext w).1
        = some w.nextPtr ∧
    w.nextPtr ≠ orig ∧
    (∀ k2, worldGetContextData (RequestContext.setShallowCopyContext w).1
        w.nextPtr k2 = worldGetContextData w orig k2) ∧
    (∀ k, worldHasContextData
        (worldClearContextData (RequestContext.setShallowCopyContext w).1
          w.nextPtr k) orig k
      = worldHasContextData w orig k) ∧
    (∀ k d, worldHasContextData
        (worldOverwriteContextData (RequestContext.setShallowCopyContext w).1
          w.nextPtr k d) orig k
      = worldHasContextData w orig k) ∧
    (∀ k k2, k2 ≠ k →
      worldGetContextData
        (worldClearContextData (RequestContext.setShallowCopyContext w).1
          w.nextPtr k) w.nextPtr k2
      = worldGetContextData w orig k2) ∧
    (∀ k d k2, k2 ≠ k →
      worldGetContextData
        (worldOverwriteContextData (RequestContext.setShallowCopyContext w).1
          w.nextPtr k d) w.nextPtr k2
      = worldGetContextData w orig k2) := by
  have hne : w.nextPtr ≠ orig := by
    intro heq
    rw [heq, h2] at h3
    exact Option.noConfusion h3
  have hw' : RequestContext.setShallowCopyContext w
      = ({ w with
            heap := (sOrig.requestData_.map Prod.snd).foldl constructPtr w.heap,
            ctxs := (w.nextPtr, sOrig) :: w.ctxs,
            slot := some w.nextPtr,
            nextPtr := w.nextPtr + 1 }, some orig) := by
    unfold RequestContext.setShallowCopyContext
    rw [h1]
    simp [h2]
  have hne' : orig ≠ w.nextPtr := Ne.symm hne
  refine ⟨?_, hne, ?_, ?_, ?_, ?_, ?_⟩
  · rw [hw']
    rfl
  · intro k2
    rw [hw']
    simp [worldGetContextData, ctxFind, h2]
  · intro k
    rw [hw']
    simp only [worldClearContextData, ctxFind, if_pos rfl]
    simp only [ctxUpdate, if_pos rfl]
    simp [worldHasContextData, ctxFind, hne', h2]
  · intro k d
    rw [hw']
    simp only [worldOverwriteContextData, worldDoSet, ctxFind, if_pos rfl]
    simp only [ctxUpdate, if_pos rfl]
    simp [worldHasContextData, ctxFind, hne', h2]
  · intro k k2 hk
    rw [hw']
    simp only [worldClearContextData, ctxFind, if_pos rfl]
    simp only [ctxUpdate, if_pos rfl]
    simp only [worldGetContextData, ctxFind, if_pos rfl, h2]
    cases hfind : mapFind sOrig.requestData_ k with
    | none =>
      simp [clearContextData, hfind, getContextData]
    | some old =>
      simp [clearContextData, hfind, getContextData,
        mapFind_mapErase_ne sOrig.requestData_ k k2 hk]
  · intro k d k2 hk
    rw [hw']
    simp only [worldOverwriteContextData, worldDoSet, ctxFind, if_pos rfl]
    simp only [ctxUpdate, if_pos rfl]
    simp only [worldGetContextData, ctxFind, if_pos rfl, h2]
    cases hfind : mapFind sOrig.requestData_ k with
    | none =>
      simp [doSetContextData, hfind, getContextData,
        mapFind_mapInsert_ne sOrig.requestData_ k k2 d hk]
    | some old =>
      simp [doSetContextData, hfind, getContextData,
        mapFind_mapInsert_ne sOrig.requestData_ k k2 d hk]

/-- Witness for C2 at `worldW`: the shallow copy lives at the fresh address
3; reading "a" through it yields the same pointer as through the original
context 1; and clearing "a" in the copy leaves `hasContextData("a")` of
context 1 unchanged. -/
theorem shallow_copy_independence_witness :
    RequestContext.get (RequestContext.setShallowCopyContext worldW).1
        = some 3 ∧
    worldGetContextData (RequestContext.setShallowCopyContext worldW).1 3 "a"
        = worldGetContextData worldW 1 "a" ∧
    worldHasContextData
        (worldClearContextData (RequestContext.setShallowCopyContext worldW).1
          3 "a") 1 "a"
      = worldHasContextData worldW 1 "a" := by
  have h := shallow_copy_independence worldW 1 stateA rfl rfl (by decide)
  exact ⟨h.1, h.2.2.1 "a", h.2.2.2.1 "a"⟩

/-- Claim C10: constructing `ShallowCopyRequestContextScopeGuard(val, data)`
leaves the world — in particular the current context's entries and callback
index — in exactly the same state as constructing the zero-argument
`ShallowCopyRequestContextScopeGuard` and then performing
`clearContextData(val)` followed by `setContextData(val, data)` on the
current context, and emits no collision warning (no event at all). -/
theorem shallow_guard_overwrite_refines (w : World) (orig : Ptr)
    (sOrig : State) (val : String) (data : Ptr)
    (h1 : w.slot = some orig)
    (h2 : ctxFind w.ctxs orig = some sOrig)
    (hs : keysSorted sOrig.requestData_)
    (hne : ∀ old, mapFind sOrig.requestData_ val = some old → data ≠ old) :
    shallowGuardOverwriteCtor w val data = shallowGuardTwoStepCtor w val data ∧
    (shallowGuardOverwriteCtor w val data).1.trace = w.trace := by
  have hw' := setShallowCopyContext_eq w orig sOrig h1 h2
  constructor
  · unfold shallowGuardOverwriteCtor shallowGuardTwoStepCtor
    rw [hw']
    simp only [RequestContext.get, worldOverwriteContextData,
      worldClearContextData, worldSetContextData, worldDoSet, ctxFind,
      ctxUpdate, if_pos]
    rw [doSet_overwrite_eq_clear_then_set sOrig
      ((sOrig.requestData_.map Prod.snd).foldl constructPtr w.heap)
      w.warned val data hs hne]
  · unfold shallowGuardOverwriteCtor
    rw [hw']
    simp only [RequestContext.get, worldOverwriteContextData, worldDoSet,
      ctxFind, ctxUpdate, if_pos]
    simp [doSet_overwrite_events]

/-- Witness for C10 at `worldW`: overwriting the occupied key "a" with the
fresh payload at address 9 in an overwriting shallow guard equals the
zero-argument guard followed by clear-then-set, with no event emitted. -/
theorem shallow_guard_overwrite_refines_witness :
    shallowGuardOverwriteCtor worldW "a" 9
        = shallowGuardTwoStepCtor worldW "a" 9 ∧
    (shallowGuardOverwriteCtor worldW "a" 9).1.trace = worldW.trace :=
  shallow_guard_overwrite_refines worldW 1 stateA "a" 9 rfl rfl
    (by simp [keysSorted, stateA])
    (by
      intro old h
      have h7 : mapFind stateA.requestData_ "a" = some 7 := rfl
      rw [h7] at h
      injection h with h'
      rw [← h']
      decide)

end Folly
